import Mathlib

/-!
Verification of the coral repository's checkpoint digest extraction and
idempotent batch-commit handler (`src/crates/indexer/src/handlers.rs`,
`src/crates/schema/src/models.rs`), shallowly embedded in Lean 4.

The handler is embedded faithfully from the source:
* `TransactionDigestHandler.process` mirrors `Processor::process`: it maps
  each transaction of the checkpoint to a `StoredTransactionDigest`
  carrying the transaction's digest string and the checkpoint sequence
  number cast `as i64` (two's-complement reinterpretation of the `u64`).
* `TransactionDigestHandler.batch` mirrors `Handler::batch`, which is
  `batch.extend(values)` on a `Vec`, i.e. list append.
* `TransactionDigestHandler.commit` mirrors `Handler::commit`: a single
  bulk insert with `on_conflict(tx_digest).do_nothing()` returning the
  count of rows actually inserted, or the database error propagated by `?`.
  The store-side semantics of that statement are external to the crate and
  are modelled from the spec's storage contract (see `bulkInsert`).
-/

/-- Rust `u64 as i64`: two's-complement reinterpretation of a 64-bit
unsigned value (`checkpoint.checkpoint_summary.sequence_number as i64`). -/
def u64_as_i64 (n : Nat) : Int :=
  if n % 2 ^ 64 < 2 ^ 63 then ((n % 2 ^ 64 : Nat) : Int)
  else ((n % 2 ^ 64 : Nat) : Int) - 2 ^ 64

/-- `StoredTransactionDigest` from `src/crates/schema/src/models.rs`:
the row shape inserted into the `transaction_digests` table. -/
structure StoredTransactionDigest where
  tx_digest : String
  checkpoint_sequence_number : Int
deriving DecidableEq, Repr

/-- A transaction as the handler observes it: the only part the handler
reads is `tx.transaction.digest().to_string()`, the content-derived digest
rendered as a string, so we carry that string directly. -/
structure Transaction where
  digest : String
deriving DecidableEq, Repr

/-- The checkpoint summary: the handler reads only `sequence_number`
(a `u64` in the source, embedded as `Nat`; theorems that depend on the
64-bit range state the bound explicitly). -/
structure CheckpointSummary where
  sequence_number : Nat
deriving DecidableEq, Repr

/-- `CheckpointData`: the parts of the external checkpoint type the
handler reads — the summary and the ordered transaction list. -/
structure CheckpointData where
  checkpoint_summary : CheckpointSummary
  transactions : List Transaction
deriving DecidableEq, Repr

/-- The durable store's row set, in insertion order. -/
abbrev Store := List StoredTransactionDigest

/-- An error reported by the database layer for any reason other than a
`tx_digest` uniqueness conflict (connectivity, serialization, other
constraints); uniqueness conflicts are absorbed by the conflict clause
and never surface as errors. -/
structure DbError where
  message : String
deriving DecidableEq, Repr

/-- A storage connection: the store it reaches, and whether the bulk
write issued over it fails (`failure = some e`) for a non-conflict
reason, in which case statement-level atomicity leaves the store
unchanged. -/
structure Connection where
  store : Store
  failure : Option DbError
deriving DecidableEq, Repr

/-- The digests of the stored rows, in row order. -/
def digests (s : Store) : List String := s.map (·.tx_digest)

/-- Modelled from the spec: one row of the storage interface's
conflict-tolerant bulk insert ("if a row with that digest already exists,
the incoming row is silently discarded (no update, no error)"); returns
the updated store and 1 if the row was newly inserted, 0 on conflict. -/
def insertRow (s : Store) (r : StoredTransactionDigest) : Store × Nat :=
  if r.tx_digest ∈ digests s then (s, 0) else (s ++ [r], 1)

/-- Modelled from the spec: the storage interface's bulk insert with an
"on conflict do nothing" clause keyed on `tx_digest` and a returned
affected-row count — rows are processed in batch order, each inserted if
its digest is absent and silently skipped otherwise. -/
def bulkInsert (s : Store) (b : List StoredTransactionDigest) : Store × Nat :=
  match b with
  | [] => (s, 0)
  | r :: rest =>
    ((bulkInsert (insertRow s r).1 rest).1,
      (insertRow s r).2 + (bulkInsert (insertRow s r).1 rest).2)

/-- What a call to `commit` leaves behind: the value returned to the
caller (`Ok` count or the propagated error) and the store's row set
afterwards. -/
structure CommitOutcome where
  result : Except DbError Nat
  store : Store
deriving Repr

namespace TransactionDigestHandler

/-- `Processor::NAME` from `handlers.rs`: the constant component name the
handler registers under. -/
def NAME : String := "transaction_digest_handler"

/-- `Processor::process` from `handlers.rs`: reads the checkpoint's
sequence number `as i64`, then maps each transaction, in list order, to a
`StoredTransactionDigest` of its digest string and that number; always
returns `Ok`. -/
def process (checkpoint : CheckpointData) :
    Except String (List StoredTransactionDigest) :=
  let checkpoint_seq := u64_as_i64 checkpoint.checkpoint_summary.sequence_number
  Except.ok (checkpoint.transactions.map fun tx =>
    { tx_digest := tx.digest, checkpoint_sequence_number := checkpoint_seq })

/-- `Handler::batch` from `handlers.rs`: `batch.extend(values)` — append
the new values to the in-flight batch, in order. -/
def batch (b : List StoredTransactionDigest)
    (values : List StoredTransactionDigest) : List StoredTransactionDigest :=
  b ++ values

/-- `Handler::commit` from `handlers.rs`: issue the single conflict-
tolerant bulk insert of the whole batch; on database failure the `?`
operator propagates the error and the store is untouched, otherwise the
inserted-row count is returned. -/
def commit (b : List StoredTransactionDigest) (conn : Connection) :
    CommitOutcome :=
  match conn.failure with
  | some e => ⟨Except.error e, conn.store⟩
  | none => ⟨Except.ok (bulkInsert conn.store b).2, (bulkInsert conn.store b).1⟩

/-- A sequence of `commit` calls, each with its own batch and its own
database-failure behaviour, starting from a given store. -/
def commitAll (calls : List (List StoredTransactionDigest × Option DbError))
    (s : Store) : Store :=
  calls.foldl (fun st c => (commit c.1 ⟨st, c.2⟩).store) s

/-! ### Helper lemmas about the store operations -/

theorem digests_append (s t : Store) :
    digests (s ++ t) = digests s ++ digests t := by
  simp [digests]

theorem mem_digests_insertRow (s : Store) (r : StoredTransactionDigest)
    (d : String) :
    d ∈ digests (insertRow s r).1 ↔ d ∈ digests s ∨ d = r.tx_digest := by
  by_cases h : r.tx_digest ∈ digests s
  · simp only [insertRow, if_pos h]
    constructor
    · exact fun hd => Or.inl hd
    · rintro (hd | rfl)
      · exact hd
      · exact h
  · simp only [insertRow, if_neg h, digests_append, List.mem_append]
    have hd1 : digests [r] = [r.tx_digest] := by simp [digests]
    rw [hd1, List.mem_singleton]

theorem insertRow_exists_append (s : Store) (r : StoredTransactionDigest) :
    ∃ t, (insertRow s r).1 = s ++ t := by
  by_cases h : r.tx_digest ∈ digests s
  · exact ⟨[], by simp [insertRow, if_pos h]⟩
  · exact ⟨[r], by simp [insertRow, if_neg h]⟩

theorem bulkInsert_exists_append (b : List StoredTransactionDigest)
    (s : Store) : ∃ t, (bulkInsert s b).1 = s ++ t := by
  induction b generalizing s with
  | nil => exact ⟨[], by simp [bulkInsert]⟩
  | cons r rest ih =>
    obtain ⟨u, hu⟩ := insertRow_exists_append s r
    obtain ⟨t, ht⟩ := ih (insertRow s r).1
    refine ⟨u ++ t, ?_⟩
    show (bulkInsert (insertRow s r).1 rest).1 = s ++ (u ++ t)
    rw [ht, hu, List.append_assoc]

theorem insertRow_length (s : Store) (r : StoredTransactionDigest) :
    (insertRow s r).1.length = s.length + (insertRow s r).2 := by
  by_cases h : r.tx_digest ∈ digests s <;> simp [insertRow, h]

theorem bulkInsert_length (b : List StoredTransactionDigest) (s : Store) :
    (bulkInsert s b).1.length = s.length + (bulkInsert s b).2 := by
  induction b generalizing s with
  | nil => simp [bulkInsert]
  | cons r rest ih =>
    simp only [bulkInsert]
    rw [ih (insertRow s r).1, insertRow_length]
    omega

theorem mem_digests_bulkInsert (b : List StoredTransactionDigest)
    (s : Store) (d : String) :
    d ∈ digests (bulkInsert s b).1 ↔
      d ∈ digests s ∨ d ∈ b.map (·.tx_digest) := by
  induction b generalizing s with
  | nil => simp [bulkInsert]
  | cons r rest ih =>
    simp only [bulkInsert]
    rw [ih (insertRow s r).1]
    rw [mem_digests_insertRow]
    simp
    tauto

theorem digests_nodup_insertRow (s : Store) (r : StoredTransactionDigest)
    (h : (digests s).Nodup) : (digests (insertRow s r).1).Nodup := by
  by_cases hm : r.tx_digest ∈ digests s
  · simpa [insertRow, if_pos hm] using h
  · simp only [insertRow, if_neg hm, digests_append]
    simp only [List.nodup_append]
    refine ⟨h, by simp [digests], ?_⟩
    intro d hd
    simp only [digests, List.map_cons, List.map_nil, List.mem_singleton]
    rintro rfl
    exact hm hd

theorem digests_nodup_bulkInsert (b : List StoredTransactionDigest)
    (s : Store) (h : (digests s).Nodup) :
    (digests (bulkInsert s b).1).Nodup := by
  induction b generalizing s with
  | nil => simpa [bulkInsert] using h
  | cons r rest ih =>
    simp only [bulkInsert]
    exact ih (insertRow s r).1 (digests_nodup_insertRow s r h)

theorem bulkInsert_no_new (b : List StoredTransactionDigest) (s : Store)
    (h : ∀ r ∈ b, r.tx_digest ∈ digests s) : bulkInsert s b = (s, 0) := by
  induction b with
  | nil => simp [bulkInsert]
  | cons r rest ih =>
    have hr : insertRow s r = (s, 0) := by
      simp [insertRow, if_pos (h r (by simp))]
    simp only [bulkInsert, hr]
    rw [ih (fun r' hr' => h r' (by simp [hr']))]
    simp

theorem bulkInsert_batch_append_store (x y : List StoredTransactionDigest)
    (s : Store) :
    (bulkInsert s (x ++ y)).1 = (bulkInsert (bulkInsert s x).1 y).1 := by
  induction x generalizing s with
  | nil => simp [bulkInsert]
  | cons r rest ih =>
    show (bulkInsert (insertRow s r).1 (rest ++ y)).1 =
      (bulkInsert (bulkInsert (insertRow s r).1 rest).1 y).1
    exact ih (insertRow s r).1

theorem bulkInsert_batch_append_count (x y : List StoredTransactionDigest)
    (s : Store) :
    (bulkInsert s (x ++ y)).2 =
      (bulkInsert s x).2 + (bulkInsert (bulkInsert s x).1 y).2 := by
  induction x generalizing s with
  | nil => simp [bulkInsert]
  | cons r rest ih =>
    show (insertRow s r).2 + (bulkInsert (insertRow s r).1 (rest ++ y)).2 =
      ((insertRow s r).2 + (bulkInsert (insertRow s r).1 rest).2) +
        (bulkInsert (bulkInsert (insertRow s r).1 rest).1 y).2
    rw [ih (insertRow s r).1]
    omega

theorem row_unique_of_digests_nodup (s : Store)
    (h : (digests s).Nodup) (r r' : StoredTransactionDigest)
    (hr : r ∈ s) (hr' : r' ∈ s) (hd : r.tx_digest = r'.tx_digest) :
    r = r' :=
  List.inj_on_of_nodup_map h hr hr' hd

theorem bulkInsert_length_dedup (L : List StoredTransactionDigest) :
    (bulkInsert [] L).1.length = ((L.map (·.tx_digest)).dedup).length := by
  have hnd : (digests (bulkInsert [] L).1).Nodup :=
    digests_nodup_bulkInsert L [] (by simp [digests])
  have hmem : ∀ d, d ∈ digests (bulkInsert [] L).1 ↔
      d ∈ (L.map (·.tx_digest)).dedup := by
    intro d
    rw [mem_digests_bulkInsert, List.mem_dedup]
    simp [digests]
  have hperm : List.Perm (digests (bulkInsert [] L).1)
      ((L.map (·.tx_digest)).dedup) :=
    (List.perm_ext_iff_of_nodup hnd (List.nodup_dedup _)).2 hmem
  have hlen := hperm.length_eq
  simpa [digests] using hlen

theorem commit_store_exists_append (b : List StoredTransactionDigest)
    (s : Store) (f : Option DbError) :
    ∃ u, (commit b ⟨s, f⟩).store = s ++ u := by
  cases f with
  | none => simpa [commit] using bulkInsert_exists_append b s
  | some e => exact ⟨[], by simp [commit]⟩

theorem commit_store_nodup (b : List StoredTransactionDigest) (s : Store)
    (f : Option DbError) (h : (digests s).Nodup) :
    (digests (commit b ⟨s, f⟩).store).Nodup := by
  cases f with
  | none => simpa [commit] using digests_nodup_bulkInsert b s h
  | some e => simpa [commit] using h

theorem commitAll_nodup
    (calls : List (List StoredTransactionDigest × Option DbError))
    (s : Store) (h : (digests s).Nodup) :
    (digests (commitAll calls s)).Nodup := by
  induction calls generalizing s with
  | nil => simpa [commitAll] using h
  | cons c rest ih =>
    obtain ⟨b, f⟩ := c
    exact ih ((commit b ⟨s, f⟩).store) (commit_store_nodup b s f h)

theorem commitAll_exists_append
    (calls : List (List StoredTransactionDigest × Option DbError))
    (s : Store) : ∃ t, commitAll calls s = s ++ t := by
  induction calls generalizing s with
  | nil => exact ⟨[], by simp [commitAll]⟩
  | cons c rest ih =>
    obtain ⟨b, f⟩ := c
    obtain ⟨u, hu⟩ := commit_store_exists_append b s f
    obtain ⟨t, ht⟩ := ih ((commit b ⟨s, f⟩).store)
    refine ⟨u ++ t, ?_⟩
    show commitAll rest (commit b ⟨s, f⟩).store = s ++ (u ++ t)
    rw [ht, hu, List.append_assoc]

end TransactionDigestHandler

/-! ### Claims -/

open TransactionDigestHandler

/-- C9: The handler registers itself with the pipeline under a fixed,
non-computed component name: the `NAME` constant is the literal string
"transaction_digest_handler" on every run. -/
theorem c9_name_is_constant_literal :
    TransactionDigestHandler.NAME = "transaction_digest_handler" := rfl

/-- C7: `process` is total and pure: for every syntactically valid
checkpoint it returns a successful result, never an error. It is a plain
function of the checkpoint value, so it performs no I/O and leaves the
checkpoint unchanged by construction. -/
theorem c7_process_total_and_pure (c : CheckpointData) :
    ∃ rs, process c = Except.ok rs :=
  ⟨_, rfl⟩

/-- C8: the accumulate operation (`batch`) leaves the batch equal to the
old batch contents followed by the new records in their given order, with
no deduplication, reordering, or removal: the result is exactly the
append, its first part is the old batch and its second part the new
records. -/
theorem c8_batch_appends_in_order
    (b values : List StoredTransactionDigest) :
    TransactionDigestHandler.batch b values = b ++ values ∧
    (TransactionDigestHandler.batch b values).length =
      b.length + values.length ∧
    (TransactionDigestHandler.batch b values).take b.length = b ∧
    (TransactionDigestHandler.batch b values).drop b.length = values :=
  ⟨rfl, by simp [TransactionDigestHandler.batch],
    by simp [TransactionDigestHandler.batch],
    by simp [TransactionDigestHandler.batch]⟩

/-- C10: committing an empty batch over a working connection succeeds,
returns an inserted-count of 0, and leaves the store's row set
unchanged. -/
theorem c10_empty_batch_commit_noop (s : Store) :
    commit [] ⟨s, none⟩ = ⟨Except.ok 0, s⟩ := rfl

/-- C3: for every checkpoint with N transactions, `process` returns
exactly N records, one per transaction, in the transaction list's
existing order (the i-th record carries the i-th transaction's digest). -/
theorem c3_process_one_record_per_transaction (c : CheckpointData)
    (rs : List StoredTransactionDigest)
    (h : process c = Except.ok rs) :
    rs.length = c.transactions.length ∧
    rs.map (·.tx_digest) = c.transactions.map (·.digest) := by
  have hrs : rs = c.transactions.map fun tx =>
      { tx_digest := tx.digest,
        checkpoint_sequence_number :=
          u64_as_i64 c.checkpoint_summary.sequence_number } := by
    simp only [process, Except.ok.injEq] at h
    exact h.symm
  subst hrs
  refine ⟨by simp, ?_⟩
  simp [List.map_map]

/-- C3 witness: the spec's example checkpoint #100 with transactions
"a1" and "b2" yields exactly two records, in order. -/
theorem c3_witness :
    process ⟨⟨100⟩, [⟨"a1"⟩, ⟨"b2"⟩]⟩ =
      Except.ok [⟨"a1", 100⟩, ⟨"b2", 100⟩] ∧
    (([⟨"a1", (100 : Int)⟩, ⟨"b2", 100⟩] :
        List StoredTransactionDigest).length =
      ([⟨"a1"⟩, ⟨"b2"⟩] : List Transaction).length ∧
    ([⟨"a1", (100 : Int)⟩, ⟨"b2", 100⟩] :
        List StoredTransactionDigest).map (·.tx_digest) =
      ([⟨"a1"⟩, ⟨"b2"⟩] : List Transaction).map (·.digest)) :=
  ⟨rfl, c3_process_one_record_per_transaction ⟨⟨100⟩, [⟨"a1"⟩, ⟨"b2"⟩]⟩
    [⟨"a1", 100⟩, ⟨"b2", 100⟩] rfl⟩

/-- C4 counterexample: `process` casts the `u64` sequence number with
Rust's `as i64`, which wraps rather than being lossless. At sequence
number 2^63 (a syntactically valid `u64`) the single record's
`checkpoint_sequence_number` is -(2^63), not the sequence number's value
2^63, so the claim as stated fails. -/
theorem c4_counterexample :
    (process ⟨⟨2 ^ 63⟩, [⟨"a1"⟩]⟩).toOption =
      some [⟨"a1", -(2 ^ 63 : Int)⟩] ∧
    -(2 ^ 63 : Int) ≠ ((2 ^ 63 : Nat) : Int) := by
  constructor
  · have hcast : u64_as_i64 9223372036854775808 = -9223372036854775808 := by
      rw [u64_as_i64]
      norm_num
    simp [process, Except.toOption, hcast]
  · norm_num

/-- C4 (amended): each record returned by `process` has
`checkpoint_sequence_number` equal to the checkpoint's sequence number
reinterpreted as a two's-complement 64-bit signed integer — which equals
the sequence number itself (i.e. the cast is lossless) exactly when the
sequence number is below 2^63 — and `tx_digest` equal byte-for-byte to
the corresponding transaction's digest rendered as a string. -/
theorem c4_field_mapping (c : CheckpointData)
    (rs : List StoredTransactionDigest)
    (h : process c = Except.ok rs)
    (i : Nat) (hi : i < rs.length) (hi' : i < c.transactions.length) :
    (rs.get ⟨i, hi⟩).tx_digest = (c.transactions.get ⟨i, hi'⟩).digest ∧
    (rs.get ⟨i, hi⟩).checkpoint_sequence_number =
      u64_as_i64 c.checkpoint_summary.sequence_number ∧
    (c.checkpoint_summary.sequence_number < 2 ^ 63 →
      (rs.get ⟨i, hi⟩).checkpoint_sequence_number =
        (c.checkpoint_summary.sequence_number : Int)) := by
  have hrs : rs = c.transactions.map fun tx =>
      { tx_digest := tx.digest,
        checkpoint_sequence_number :=
          u64_as_i64 c.checkpoint_summary.sequence_number } := by
    simp only [process, Except.ok.injEq] at h
    exact h.symm
  subst hrs
  rw [List.get_map]
  refine ⟨rfl, rfl, fun hlt => ?_⟩
  show u64_as_i64 c.checkpoint_summary.sequence_number = _
  rw [u64_as_i64,
    Nat.mod_eq_of_lt (lt_trans hlt (by norm_num)), if_pos hlt]

/-- C4 witness: on checkpoint #100 with a single transaction "a1", the
record's fields match and the cast is lossless since 100 < 2^63. -/
theorem c4_witness :
    process ⟨⟨100⟩, [⟨"a1"⟩]⟩ = Except.ok [⟨"a1", (100 : Int)⟩] ∧
    (0 : Nat) < 1 ∧
    ("a1" = "a1" ∧
      (100 : Int) = u64_as_i64 100 ∧
      ((100 : Nat) < 2 ^ 63 → (100 : Int) = ((100 : Nat) : Int))) :=
  ⟨rfl, by decide,
    c4_field_mapping ⟨⟨100⟩, [⟨"a1"⟩]⟩ [⟨"a1", 100⟩] rfl 0
      (by decide) (by decide)⟩

/-- C6: `commit` fails exactly when the underlying bulk write fails for a
reason other than a `tx_digest` uniqueness conflict; on such a failure the
store's row set is left unchanged (the batch, taken by reference, is never
modified), and when the write itself succeeds — conflicts included, since
the conflict clause absorbs them — `commit` returns `Ok`, never an
error. -/
theorem c6_commit_error_iff_db_failure (b : List StoredTransactionDigest)
    (conn : Connection) :
    ((commit b conn).result.isOk ↔ conn.failure = none) ∧
    (∀ e, conn.failure = some e →
      (commit b conn).result = Except.error e ∧
      (commit b conn).store = conn.store) := by
  obtain ⟨s, f⟩ := conn
  cases f with
  | none =>
    refine ⟨by simp [commit, Except.isOk, Except.toBool], ?_⟩
    intro e he
    exact Option.noConfusion he
  | some e0 =>
    refine ⟨by simp [commit, Except.isOk, Except.toBool], ?_⟩
    intro e he
    have : e0 = e := by injection he
    subst this
    exact ⟨rfl, rfl⟩

/-- C6 witness: a failing connection makes `commit` return exactly the
database error and leaves the (empty) store unchanged. -/
theorem c6_witness :
    (commit [⟨"a1", 100⟩] ⟨[], some ⟨"db down"⟩⟩).result =
      Except.error ⟨"db down"⟩ ∧
    (commit [⟨"a1", 100⟩] ⟨[], some ⟨"db down"⟩⟩).store = [] :=
  (c6_commit_error_iff_db_failure [⟨"a1", 100⟩]
    ⟨[], some ⟨"db down"⟩⟩).2 ⟨"db down"⟩ rfl

/-- C1: starting from any store whose digests are distinct (in
particular the empty store), after any sequence of `commit` calls —
each with its own batch and its own success or failure — at most one row
exists per digest, every row already present survives every later commit
byte-for-byte (so it keeps the `checkpoint_sequence_number` stamped by
the first commit that durably inserted its digest), and no distinct row
with the same digest can ever coexist with it. -/
theorem c1_digest_unique_first_write_wins
    (calls : List (List StoredTransactionDigest × Option DbError))
    (s : Store) (hnd : (digests s).Nodup) :
    (digests (commitAll calls s)).Nodup ∧
    (∀ r ∈ s, r ∈ commitAll calls s) ∧
    (∀ r r', r ∈ commitAll calls s → r' ∈ commitAll calls s →
      r.tx_digest = r'.tx_digest → r = r') := by
  refine ⟨commitAll_nodup calls s hnd, ?_, ?_⟩
  · intro r hr
    obtain ⟨t, ht⟩ := commitAll_exists_append calls s
    rw [ht]
    exact List.mem_append_left t hr
  · intro r r' hr hr' hd
    exact row_unique_of_digests_nodup _ (commitAll_nodup calls s hnd)
      r r' hr hr' hd

/-- C1 witness: one successful commit of the record ("a1", 100) against
the empty store. -/
theorem c1_witness :
    (digests ([] : Store)).Nodup ∧
    ((digests (commitAll [([⟨"a1", 100⟩], none)] [])).Nodup ∧
      (∀ r ∈ ([] : Store), r ∈ commitAll [([⟨"a1", 100⟩], none)] []) ∧
      (∀ r r', r ∈ commitAll [([⟨"a1", 100⟩], none)] [] →
        r' ∈ commitAll [([⟨"a1", 100⟩], none)] [] →
        r.tx_digest = r'.tx_digest → r = r')) :=
  ⟨by decide,
    c1_digest_unique_first_write_wins [([⟨"a1", 100⟩], none)] [] (by decide)⟩

/-- C2: committing the same batch twice against an initially empty store
(with the write succeeding both times) leaves exactly one stored row per
unique `tx_digest` of the batch — the stored digests are distinct and are
exactly the batch's digests — the second commit returns an
inserted-count of 0, and the store is unchanged by the second commit. -/
theorem c2_commit_idempotent (b : List StoredTransactionDigest) :
    (commit b ⟨(commit b ⟨[], none⟩).store, none⟩).result = Except.ok 0 ∧
    (commit b ⟨(commit b ⟨[], none⟩).store, none⟩).store =
      (commit b ⟨[], none⟩).store ∧
    (digests (commit b ⟨[], none⟩).store).Nodup ∧
    (∀ d, d ∈ digests (commit b ⟨[], none⟩).store ↔
      d ∈ b.map (·.tx_digest)) := by
  have hall : ∀ r ∈ b, r.tx_digest ∈ digests (bulkInsert [] b).1 := by
    intro r hr
    rw [mem_digests_bulkInsert]
    exact Or.inr (List.mem_map_of_mem _ hr)
  have h0 : bulkInsert (bulkInsert [] b).1 b = ((bulkInsert [] b).1, 0) :=
    bulkInsert_no_new b _ hall
  refine ⟨?_, ?_, ?_, ?_⟩
  · show Except.ok (bulkInsert (bulkInsert [] b).1 b).2 = Except.ok 0
    rw [h0]
  · show (bulkInsert (bulkInsert [] b).1 b).1 = (bulkInsert [] b).1
    rw [h0]
  · exact digests_nodup_bulkInsert b [] (by simp [digests])
  · intro d
    show d ∈ digests (bulkInsert [] b).1 ↔ _
    rw [mem_digests_bulkInsert]
    simp [digests]

/-- C5: committing two batches whose digest sets overlap, one after the
other against an initially empty store, leaves exactly as many stored
rows as there are distinct digests in the two batches together, and the
two commits' returned inserted-counts sum to that same number; the
statement holds for every pair of batches, so it covers both commit
orders. -/
theorem c5_merge_safety (A B : List StoredTransactionDigest)
    (hoverlap : ∃ d, d ∈ A.map (·.tx_digest) ∧ d ∈ B.map (·.tx_digest)) :
    (commit B ⟨(commit A ⟨[], none⟩).store, none⟩).store.length =
      (((A ++ B).map (·.tx_digest)).dedup).length ∧
    (∃ n1 n2, (commit A ⟨[], none⟩).result = Except.ok n1 ∧
      (commit B ⟨(commit A ⟨[], none⟩).store, none⟩).result =
        Except.ok n2 ∧
      n1 + n2 = (((A ++ B).map (·.tx_digest)).dedup).length) := by
  have hstore : (commit B ⟨(commit A ⟨[], none⟩).store, none⟩).store =
      (bulkInsert [] (A ++ B)).1 := by
    show (bulkInsert (bulkInsert [] A).1 B).1 = (bulkInsert [] (A ++ B)).1
    rw [bulkInsert_batch_append_store]
  have hcount : (bulkInsert [] A).2 + (bulkInsert (bulkInsert [] A).1 B).2 =
      (bulkInsert [] (A ++ B)).2 :=
    (bulkInsert_batch_append_count A B []).symm
  have hlen : (bulkInsert [] (A ++ B)).1.length =
      (((A ++ B).map (·.tx_digest)).dedup).length :=
    bulkInsert_length_dedup (A ++ B)
  have hlc : (bulkInsert [] (A ++ B)).1.length =
      (bulkInsert [] (A ++ B)).2 := by
    have hb := bulkInsert_length (A ++ B) []
    simpa using hb
  constructor
  · rw [hstore, hlen]
  · refine ⟨(bulkInsert [] A).2, (bulkInsert (bulkInsert [] A).1 B).2,
      rfl, rfl, ?_⟩
    rw [hcount, ← hlc, hlen]

/-- C5 witness: the spec's example — batches ["a1","b2"] and
["b2","c3"] share "b2"; after both commits the store holds exactly 3 rows
and the two inserted-counts sum to 3. -/
theorem c5_witness :
    (∃ d, d ∈ ([⟨"a1", 1⟩, ⟨"b2", 1⟩] :
        List StoredTransactionDigest).map (·.tx_digest) ∧
      d ∈ ([⟨"b2", 2⟩, ⟨"c3", 2⟩] :
        List StoredTransactionDigest).map (·.tx_digest)) ∧
    (commit [⟨"b2", 2⟩, ⟨"c3", 2⟩]
        ⟨(commit [⟨"a1", 1⟩, ⟨"b2", 1⟩] ⟨[], none⟩).store, none⟩).store.length =
      ((([⟨"a1", 1⟩, ⟨"b2", 1⟩] ++ [⟨"b2", 2⟩, ⟨"c3", 2⟩] :
        List StoredTransactionDigest).map (·.tx_digest)).dedup).length :=
  ⟨⟨"b2", by decide, by decide⟩,
    (c5_merge_safety [⟨"a1", 1⟩, ⟨"b2", 1⟩] [⟨"b2", 2⟩, ⟨"c3", 2⟩]
      ⟨"b2", by decide, by decide⟩).1⟩
